import Mathlib

/-!
Verification of the task-sheet splitter (src/task_sheet_splitter/main.py).

The program slices the pages of a PDF worksheet at task headings, tightens
each slice to its text content, merges slices across page breaks and lays
every task out on a fresh output page, optionally drawing an answer grid.

Shallow embedding conventions:
* coordinates are rationals (the Python code computes with floats; the
  numeric literals 0.2, 0.05, 0.005, 0.007, 0.01 are modelled exactly as
  1/5, 1/20, 1/200, 7/1000, 1/100);
* a fitz page is a record of its rectangle, its crop-box position and its
  text blocks; a fitz document is the list of its pages;
* the external block extraction with a clip rectangle
  (page.get_text with clip) is an explicit function parameter named fetch;
* the side effects of layout_tasks (new_page, showPDFpage, draw_line) are
  modelled as a list of events.
-/

set_option maxRecDepth 10000

/-- Axis-aligned rectangle (fitz.Rect): (x0, y0) is the top-left corner,
(x1, y1) the bottom-right one, with the y-axis growing downward. -/
structure Rect where
  x0 : ℚ
  y0 : ℚ
  x1 : ℚ
  y1 : ℚ
deriving DecidableEq

/-- Width of a fitz.Rect: the absolute difference of the x coordinates. -/
def Rect.width (r : Rect) : ℚ := |r.x1 - r.x0|

/-- Height of a fitz.Rect: the absolute difference of the y coordinates. -/
def Rect.height (r : Rect) : ℚ := |r.y1 - r.y0|

/-- A text block as returned by fitz: its bounding box and its text.
In the Python tuple, b[1] is y0 (top), b[3] is y1 (bottom), b[4] the text. -/
structure Block where
  x0 : ℚ
  y0 : ℚ
  x1 : ℚ
  y1 : ℚ
  text : String
deriving DecidableEq

/-- A fitz page: media rectangle, crop-box position (an x/y offset),
its text blocks, and its index in the document (fitz page.number). -/
structure Page where
  rect : Rect
  cropX : ℚ
  cropY : ℚ
  blocks : List Block
  number : ℕ
deriving DecidableEq

/-- A task part: a slice of a page between two y-coordinates
(class TaskPart of main.py, fields page and rect). -/
structure TaskPart where
  page : Page
  rect : Rect
deriving DecidableEq

/-- TaskPart.from_y_offsets: the part of a page between the y offsets y0
and y1, spanning the full page width. -/
def TaskPart.from_y_offsets (page : Page) (y0 y1 : ℚ) : TaskPart :=
  { page := page
    rect := { x0 := page.rect.x0, y0 := y0, x1 := page.rect.x1, y1 := y1 } }

/-- Whitespace as matched by the regex class \s (ASCII range; all strings
appearing in this development are ASCII). -/
def isPySpace (c : Char) : Bool :=
  c = ' ' || c = '\t' || c = '\n' || c = '\r' || c = '\x0b' || c = '\x0c'

/-- Remove a literal prefix from a character list; none if it is not there. -/
def dropLead : List Char → List Char → Option (List Char)
  | [], cs => some cs
  | _ :: _, [] => none
  | p :: ps, c :: cs => if c = p then dropLead ps cs else none

/-- PAGE_NUMBER_REGEX.match of main.py: a matcher for the anchored regex
(Page|Seite)?\s*[0-9](\s*(of|von)\s*[0-9]*)?\s*$ (one single digit for the
page number, optionally followed by of/von and a possibly multi-digit
total).  The regex is deterministic: each alternative and option is forced
by the next character class, so the greedy scan below recognizes exactly
the regex language. -/
def pageNumberMatch (s : String) : Bool :=
  let cs := s.data
  let afterWord : List Char :=
    match dropLead ['P', 'a', 'g', 'e'] cs with
    | some r => r
    | none =>
      match dropLead ['S', 'e', 'i', 't', 'e'] cs with
      | some r => r
      | none => cs
  match afterWord.dropWhile isPySpace with
  | [] => false
  | d :: rest =>
    if d.isDigit then
      let rest2 := rest.dropWhile isPySpace
      if rest2 = [] then
        true
      else
        match
          (match dropLead ['o', 'f'] rest2 with
           | some r => some r
           | none => dropLead ['v', 'o', 'n'] rest2) with
        | none => false
        | some r => ((r.dropWhile isPySpace).dropWhile Char.isDigit).dropWhile isPySpace = []
    else false

/-- Stable insertion by the top coordinate, mirroring Python sorted with
key b[1]: an element is placed before the first strictly greater key, so
equal keys keep their original order. -/
def insertByY0 (b : Block) : List Block → List Block
  | [] => [b]
  | c :: cs => if b.y0 ≤ c.y0 then b :: c :: cs else c :: insertByY0 b cs

/-- Stable sort of blocks by their top coordinate (Python sorted, key b[1]). -/
def sortByY0 : List Block → List Block
  | [] => []
  | b :: bs => insertByY0 b (sortByY0 bs)

/-- The noise test of TaskPart.cropped: the Python condition
last_y and (block[1] - last_y) / page.rect.height > 0.05 and
PAGE_NUMBER_REGEX.match(block[4]).  Note that last_y must be truthy: both
None (no block retained yet) and 0.0 (last retained block at top 0) fail. -/
def isNoise (ph : ℚ) (lastY : Option ℚ) (b : Block) : Bool :=
  match lastY with
  | none => false
  | some y => decide (y ≠ 0) && decide ((b.y0 - y) / ph > 1/20) && pageNumberMatch b.text

/-- The retention loop of TaskPart.cropped: walk the blocks sorted by top,
skip noise blocks and blocks with empty text, keep the rest, remembering
the top of the last retained block. -/
def cropLoop (ph : ℚ) : Option ℚ → List Block → List Block
  | _, [] => []
  | lastY, b :: rest =>
    if isNoise ph lastY b then cropLoop ph lastY rest
    else if b.text = "" then cropLoop ph lastY rest
    else b :: cropLoop ph (some b.y0) rest

/-- Total character count of the retained blocks
(sum(len(b[4]) for b in blocks) in the Python code). -/
def sumChars (bs : List Block) : ℕ := (bs.map (fun b => b.text.length)).sum

/-- The blocks retained by TaskPart.cropped for a given part: the blocks
fetched with the part rectangle as clip, sorted by top, run through the
retention loop. -/
def retainedBlocks (fetch : Page → Rect → List Block) (tp : TaskPart) : List Block :=
  cropLoop tp.page.rect.height none (sortByY0 (fetch tp.page tp.rect))

/-- TaskPart.cropped: crop a part to its text blocks, or none if that
would leave fewer than 10 characters.  The fetch parameter stands for
page.get_text with the part rectangle as clip. -/
def TaskPart.cropped (fetch : Page → Rect → List Block) (tp : TaskPart) : Option TaskPart :=
  match retainedBlocks fetch tp with
  | [] => none
  | b0 :: rest =>
    if sumChars (b0 :: rest) < 10 then none
    else
      some (TaskPart.from_y_offsets tp.page
        (b0.y0 - tp.page.rect.height * (1/200))
        (rest.foldl (fun m b => max m b.y1) b0.y1 + tp.page.rect.height * (7/1000)))

/-- The loop of TaskPart.split_page: cut at each matched block in order,
keeping the running previous boundary, and close with a final part that
ends at the page bottom. -/
def splitGo (page : Page) (prev : ℚ) : List Block → List TaskPart
  | [] => [TaskPart.from_y_offsets page prev page.rect.y1]
  | b :: rest =>
    TaskPart.from_y_offsets page prev
        (max (b.y0 - (1/5) * |b.y1 - b.y0|) page.rect.y0)
      :: splitGo page (max (b.y0 - (1/5) * |b.y1 - b.y0|) page.rect.y0) rest

/-- TaskPart.split_page: split a page into parts by cutting at the text
blocks whose text matches the heading predicate (block_re.match in the
Python code), sorted by top coordinate. -/
def TaskPart.split_page (page : Page) (re : String → Bool) : List TaskPart :=
  splitGo page page.rect.y0 (sortByY0 (page.blocks.filter (fun b => re b.text)))

/-- TaskPart.source_rect: the part rectangle shifted by the page's
crop-box position (rect + fitz.Rect(CropBoxPosition, CropBoxPosition)). -/
def TaskPart.source_rect (tp : TaskPart) : Rect :=
  { x0 := tp.rect.x0 + tp.page.cropX
    y0 := tp.rect.y0 + tp.page.cropY
    x1 := tp.rect.x1 + tp.page.cropX
    y1 := tp.rect.y1 + tp.page.cropY }

/-- Append a part to the last task of the task list
(tasks[-1].append(part) in collect_tasks); identity on the empty list,
which the caller rules out. -/
def appendToLast (c : TaskPart) : List (List TaskPart) → List (List TaskPart)
  | [] => []
  | [t] => [t ++ [c]]
  | t :: ts => t :: appendToLast c ts

/-- One iteration of the loop body of collect_tasks at slice index i:
discarded slices are skipped; the crop of the slice at index 0 is merged
into the last task when one exists; every other crop starts a new task. -/
def collectStep (ts : List (List TaskPart)) (i : ℕ) (c : Option TaskPart) :
    List (List TaskPart) :=
  match c with
  | none => ts
  | some c => if i = 0 ∧ ts ≠ [] then appendToLast c ts else ts ++ [[c]]

/-- Processing of one page inside collect_tasks: enumerate the raw slices
of the page, crop each, and fold the loop body over them. -/
def collectPage (fetch : Page → Rect → List Block) (re : String → Bool)
    (ts : List (List TaskPart)) (page : Page) : List (List TaskPart) :=
  ((TaskPart.split_page page re).enum).foldl
    (fun ts p => collectStep ts p.1 (TaskPart.cropped fetch p.2)) ts

/-- collect_tasks of main.py: fold the per-page processing over the pages
of the document in order, starting from the empty task list. -/
def collect_tasks (fetch : Page → Rect → List Block) (doc : List Page)
    (re : String → Bool) : List (List TaskPart) :=
  doc.foldl (collectPage fetch re) []

/-- Modelled from the spec: the clipped block extraction of the external
document engine (page.get_text with a clip rectangle), which is not part
of this repository.  Per the spec, the cropper fetches the blocks whose
bounding box intersects the slice's range, so the model keeps exactly the
blocks whose boxes overlap the clip rectangle. -/
def getTextClip (page : Page) (clip : Rect) : List Block :=
  page.blocks.filter (fun b =>
    decide (b.y0 < clip.y1) && decide (clip.y0 < b.y1) &&
    decide (b.x0 < clip.x1) && decide (clip.x0 < b.x1))

/-- One effect of layout_tasks on the output document: appending a new
page of a given width and height, copying a clipped source page rectangle
onto a target rectangle (showPDFpage: target, source page number, clip),
or drawing a line (draw_line: the two endpoints and the stroke opacity). -/
inductive Event where
  | newPage : ℚ → ℚ → Event
  | copy : Rect → ℕ → Rect → Event
  | line : ℚ → ℚ → ℚ → ℚ → ℚ → Event
deriving DecidableEq

/-- The part-placing loop of layout_tasks: each part is copied, centered,
at the running vertical cursor, which then advances by the part height
plus 0.007 of the source page height. -/
def partsEvents (w : ℚ) : ℚ → List TaskPart → List Event
  | _, [] => []
  | y, p :: ps =>
    Event.copy
        { x0 := w/2 - p.source_rect.width/2
          y0 := y
          x1 := w/2 - p.source_rect.width/2 + p.source_rect.width
          y1 := y + p.source_rect.height }
        p.page.number p.source_rect
      :: partsEvents w (y + p.source_rect.height + (7/1000) * p.page.rect.height) ps

/-- The value of the vertical cursor y_offset after the part-placing loop. -/
def yAfter : ℚ → List TaskPart → ℚ
  | y, [] => y
  | y, p :: ps => yAfter (y + p.source_rect.height + (7/1000) * p.page.rect.height) ps

/-- Python float modulo for a positive divisor: a - m * floor(a / m). -/
def pyMod (a m : ℚ) : ℚ := a - m * (⌊a / m⌋ : ℤ)

/-- Number of iterations of a loop that starts at base, draws while
base ≤ h, and advances by cell each time; zero when cell is not positive
(the Python loop would not terminate then, which is unreachable since
cell is a positive page width divided by 40). -/
def hIter (base h cell : ℚ) : ℕ :=
  if base ≤ h ∧ 0 < cell then (⌊(h - base) / cell⌋ + 1).toNat else 0

/-- The successive loop values base, base+cell, ... while they stay ≤ h:
the y positions of the horizontal grid lines when started at start. -/
def hYs (base h cell : ℚ) : List ℚ :=
  (List.range (hIter base h cell)).map (fun k : ℕ => base + (k : ℚ) * cell)

/-- The x positions of the vertical grid lines: starting at
(w mod cell)/2 while ≤ w, plus the one extra line the code draws after
the loop (at the first x beyond w). -/
def vXs (w cell : ℚ) : List ℚ :=
  (List.range (hIter (pyMod w cell / 2) w cell + 1)).map
    (fun k : ℕ => pyMod w cell / 2 + (k : ℚ) * cell)

/-- The grid drawing of layout_tasks: horizontal lines spanning the full
width at the y positions of hYs started at start, then vertical lines
from start down to h at the x positions of vXs, all at opacity 0.3. -/
def gridEvents (w h srcw start : ℚ) : List Event :=
  ((hYs start h (srcw / 40)).map (fun y => Event.line 0 y w y (3/10)))
    ++ ((vXs w (srcw / 40)).map (fun x => Event.line x start x h (3/10)))

/-- The per-task body of layout_tasks: one new output page sized from the
first part's page (width and height swapped in landscape mode), the
copies of the parts, and, when the grid is enabled, the grid lines
started at y_offset + 0.01 * h.  A task is never empty in the program
(collect_tasks only builds nonempty tasks); on [] the Python code would
fail at task[0], and the model returns no events. -/
def layoutTask (landscape grid : Bool) : List TaskPart → List Event
  | [] => []
  | p0 :: rest =>
    Event.newPage (if landscape then p0.page.rect.height else p0.page.rect.width)
        (if landscape then p0.page.rect.width else p0.page.rect.height)
      :: (partsEvents (if landscape then p0.page.rect.height else p0.page.rect.width)
            0 (p0 :: rest)
        ++ (if grid then
              gridEvents
                (if landscape then p0.page.rect.height else p0.page.rect.width)
                (if landscape then p0.page.rect.width else p0.page.rect.height)
                p0.page.rect.width
                (yAfter 0 (p0 :: rest)
                  + (1/100) * (if landscape then p0.page.rect.width else p0.page.rect.height))
            else []))

/-- layout_tasks of main.py: the concatenation of the per-task events, in
task order. -/
def layout_tasks (landscape grid : Bool) (tasks : List (List TaskPart)) : List Event :=
  (tasks.map (layoutTask landscape grid)).flatten

/-- Example heading predicate: matches exactly the text "Exercise 1\n". -/
def reEx : String → Bool := fun s => s = "Exercise 1\n"

/-- First content block of the first example page. -/
def bA : Block := ⟨10, 50, 500, 70, "Task one content!!"⟩

/-- Heading block of the first example page. -/
def bH1 : Block := ⟨10, 300, 500, 320, "Exercise 1\n"⟩

/-- Second content block of the first example page. -/
def bB : Block := ⟨10, 350, 500, 380, "Task two content!!"⟩

/-- First example page: content, then a heading, then more content. -/
def page1 : Page := ⟨⟨0, 0, 600, 800⟩, 0, 0, [bA, bH1, bB], 0⟩

/-- First heading block of the second example page. -/
def bH2 : Block := ⟨10, 100, 500, 120, "Exercise 1\n"⟩

/-- Content block between the two headings of the second example page. -/
def bC : Block := ⟨10, 150, 500, 180, "Task cont content!"⟩

/-- Second heading block of the second example page. -/
def bH3 : Block := ⟨10, 400, 500, 420, "Exercise 1\n"⟩

/-- Content block after the second heading of the second example page. -/
def bD : Block := ⟨10, 450, 500, 480, "Task four content!"⟩

/-- Second example page: nothing above the first heading, so the first
raw slice of this page crops to none. -/
def page2 : Page := ⟨⟨0, 0, 600, 800⟩, 0, 0, [bH2, bC, bH3, bD], 1⟩

/-- A copy of the first example page placed at index 1: its first raw
slice has real content and survives cropping. -/
def page2b : Page := ⟨⟨0, 0, 600, 800⟩, 0, 0, [bA, bH1, bB], 1⟩

/-- Crop of the first slice of page1: the content above the heading. -/
def a1 : TaskPart := ⟨page1, ⟨0, 46, 600, 378/5⟩⟩

/-- Crop of the second slice of page1: heading plus following content. -/
def a2 : TaskPart := ⟨page1, ⟨0, 296, 600, 1928/5⟩⟩

/-- Crop of the middle slice of page2. -/
def a3 : TaskPart := ⟨page2, ⟨0, 96, 600, 928/5⟩⟩

/-- Crop of the last slice of page2. -/
def a4 : TaskPart := ⟨page2, ⟨0, 396, 600, 2428/5⟩⟩

/-- Crop of the first slice of page2b. -/
def a1b : TaskPart := ⟨page2b, ⟨0, 46, 600, 378/5⟩⟩

/-- Crop of the second slice of page2b. -/
def a2b : TaskPart := ⟨page2b, ⟨0, 296, 600, 1928/5⟩⟩

/-- Invariant: all tasks are nonempty and their parts have strictly
increasing page indices. -/
def GoodTasks (ts : List (List TaskPart)) : Prop :=
  ∀ t ∈ ts, t ≠ [] ∧ List.Chain' (fun a b : TaskPart => a.page.number < b.page.number) t

/-- Invariant: every part stored in the task list is from a page whose
index is strictly below n. -/
def TasksBelow (n : ℕ) (ts : List (List TaskPart)) : Prop :=
  ∀ t ∈ ts, ∀ p ∈ t, p.page.number < n

/-- Invariant: every part stored in the task list is from a page whose
index is at most n. -/
def TasksBelowEq (n : ℕ) (ts : List (List TaskPart)) : Prop :=
  ∀ t ∈ ts, ∀ p ∈ t, p.page.number ≤ n

/-- A block whose top coordinate is 500, with the bare page-number text 3;
it triggers the noise rule after a retained block at top 100 on a page of
height 800. -/
def bNum : Block := ⟨10, 500, 500, 515, "3"⟩

/-- Block of noise-like text on the counterexample page for C3: its text
is the two-digit number 12, which PAGE_NUMBER_REGEX does not match. -/
def bN : Block := ⟨10, 500, 500, 515, "12"⟩

/-- Content block at the top of the counterexample page for C3. -/
def bT : Block := ⟨10, 100, 500, 120, "Hello world blocks"⟩

/-- Counterexample page for C3: content at top 100, then the two-digit
page number 12 at top 500, far below (gap 50 percent of page height). -/
def page3 : Page := ⟨⟨0, 0, 600, 800⟩, 0, 0, [bT, bN], 0⟩

/-- The whole-page slice of page3. -/
def slice3 : TaskPart := ⟨page3, ⟨0, 0, 600, 800⟩⟩

/-- Content block at the very top edge of the counterexample page for C4. -/
def bTop : Block := ⟨10, 0, 500, 20, "HelloWorldABC"⟩

/-- Counterexample page for C4: its only block touches the page top. -/
def page4 : Page := ⟨⟨0, 0, 600, 800⟩, 0, 0, [bTop], 0⟩

/-- The whole-page slice of page4 (what split_page yields with no heading). -/
def slice4 : TaskPart := ⟨page4, ⟨0, 0, 600, 800⟩⟩

/-- The cut positions used by the split loop: for each block, 20 percent
of its height above its top, clamped to the page top. -/
def boundaries (page : Page) (bs : List Block) : List ℚ :=
  bs.map (fun b => max (b.y0 - (1/5) * |b.y1 - b.y0|) page.rect.y0)

/-- The heading cuts of a page: the boundaries of its matched blocks
sorted by top coordinate. -/
def headingCuts (page : Page) (re : String → Bool) : List ℚ :=
  boundaries page (sortByY0 (page.blocks.filter (fun b => re b.text)))

/-- First heading block on the counterexample page for C2: short (height
10), so its cut is only 2 above its top. -/
def bS1 : Block := ⟨10, 100, 500, 110, "Exercise 1\n"⟩

/-- Second heading block on the counterexample page for C2: tall (height
200), so its cut is 40 above its top — above the previous cut. -/
def bS2 : Block := ⟨10, 111, 500, 311, "Exercise 1\n"⟩

/-- Counterexample page for C2: two distinct, non-overlapping headings
whose cuts are not monotone. -/
def page5 : Page := ⟨⟨0, 0, 600, 800⟩, 0, 0, [bS1, bS2], 0⟩

/-- Output page width of a task (width and height swap in landscape mode). -/
def outW (landscape : Bool) (p0 : TaskPart) : ℚ :=
  if landscape then p0.page.rect.height else p0.page.rect.width

/-- Output page height of a task. -/
def outH (landscape : Bool) (p0 : TaskPart) : ℚ :=
  if landscape then p0.page.rect.width else p0.page.rect.height

/-- The grid start line: the cursor after the last part plus 0.01 of the
output height. -/
def gridStart (landscape : Bool) (p0 : TaskPart) (rest : List TaskPart) : ℚ :=
  yAfter 0 (p0 :: rest) + (1/100) * outH landscape p0

/-- Recognizer for line-drawing events. -/
def isLineEvent : Event → Bool
  | Event.line _ _ _ _ _ => true
  | _ => false

/-- Recognizer for page-creation events. -/
def isNewPageEvent : Event → Bool
  | Event.newPage _ _ => true
  | _ => false

/-- Recognizer for copy (showPDFpage) events. -/
def isCopyEvent : Event → Bool
  | Event.copy _ _ _ => true
  | _ => false

/-- A bare page used for the layout examples (its blocks are irrelevant
to layout, which reads only rectangle, crop position and number). -/
def page6 : Page := ⟨⟨0, 0, 600, 800⟩, 0, 0, [], 0⟩

/-- A task part covering the whole of page6: tall enough that the grid
start lands beyond the page bottom. -/
def cPart : TaskPart := ⟨page6, ⟨0, 0, 600, 800⟩⟩

/-- A short task part on page6: the grid start stays on the page. -/
def dPart : TaskPart := ⟨page6, ⟨0, 0, 600, 100⟩⟩

/-- Length of a string literal, reduced to the length of its character
list so that simp can evaluate it. -/
theorem strLen (s : String) : s.length = s.data.length := rfl

theorem split_page1 : TaskPart.split_page page1 reEx
    = [⟨page1, ⟨0, 0, 600, 296⟩⟩, ⟨page1, ⟨0, 296, 600, 800⟩⟩] := by
  norm_num [TaskPart.split_page, splitGo, sortByY0, insertByY0, reEx,
    TaskPart.from_y_offsets, page1, bA, bH1, bB]

theorem split_page2 : TaskPart.split_page page2 reEx
    = [⟨page2, ⟨0, 0, 600, 96⟩⟩, ⟨page2, ⟨0, 96, 600, 396⟩⟩, ⟨page2, ⟨0, 396, 600, 800⟩⟩] := by
  norm_num [TaskPart.split_page, splitGo, sortByY0, insertByY0, reEx,
    TaskPart.from_y_offsets, page2, bH2, bC, bH3, bD]

theorem split_page2b : TaskPart.split_page page2b reEx
    = [⟨page2b, ⟨0, 0, 600, 296⟩⟩, ⟨page2b, ⟨0, 296, 600, 800⟩⟩] := by
  norm_num [TaskPart.split_page, splitGo, sortByY0, insertByY0, reEx,
    TaskPart.from_y_offsets, page2b, bA, bH1, bB]

theorem fetch1a : getTextClip page1 ⟨0, 0, 600, 296⟩ = [bA] := by
  norm_num [getTextClip, page1, bA, bH1, bB]

theorem fetch1b : getTextClip page1 ⟨0, 296, 600, 800⟩ = [bH1, bB] := by
  norm_num [getTextClip, page1, bA, bH1, bB]

theorem fetch2a : getTextClip page2 ⟨0, 0, 600, 96⟩ = [] := by
  norm_num [getTextClip, page2, bH2, bC, bH3, bD]

theorem fetch2b : getTextClip page2 ⟨0, 96, 600, 396⟩ = [bH2, bC] := by
  norm_num [getTextClip, page2, bH2, bC, bH3, bD]

theorem fetch2c : getTextClip page2 ⟨0, 396, 600, 800⟩ = [bH3, bD] := by
  norm_num [getTextClip, page2, bH2, bC, bH3, bD]

theorem fetch2ba : getTextClip page2b ⟨0, 0, 600, 296⟩ = [bA] := by
  norm_num [getTextClip, page2b, bA, bH1, bB]

theorem fetch2bb : getTextClip page2b ⟨0, 296, 600, 800⟩ = [bH1, bB] := by
  norm_num [getTextClip, page2b, bA, bH1, bB]

theorem crop1a : TaskPart.cropped getTextClip ⟨page1, ⟨0, 0, 600, 296⟩⟩ = some a1 := by
  norm_num [TaskPart.cropped, retainedBlocks, fetch1a, sortByY0, insertByY0, cropLoop,
    isNoise, sumChars, TaskPart.from_y_offsets, a1, page1, bA, Rect.height,
    (by decide : pageNumberMatch "Task one content!!" = false),
    (by decide : ("Task one content!!" : String).length = 18),
    (by decide : ("Task one content!!" : String) ≠ "")]

theorem crop1b : TaskPart.cropped getTextClip ⟨page1, ⟨0, 296, 600, 800⟩⟩ = some a2 := by
  norm_num [TaskPart.cropped, retainedBlocks, fetch1b, sortByY0, insertByY0, cropLoop,
    isNoise, sumChars, TaskPart.from_y_offsets, a2, page1, bH1, bB, Rect.height,
    (by decide : pageNumberMatch "Exercise 1\n" = false),
    (by decide : pageNumberMatch "Task two content!!" = false),
    (by decide : ("Exercise 1\n" : String).length = 11),
    (by decide : ("Task two content!!" : String).length = 18),
    (by decide : ("Exercise 1\n" : String) ≠ ""),
    (by decide : ("Task two content!!" : String) ≠ "")]

theorem crop2a : TaskPart.cropped getTextClip ⟨page2, ⟨0, 0, 600, 96⟩⟩ = none := by
  norm_num [TaskPart.cropped, retainedBlocks, fetch2a, sortByY0, cropLoop, sumChars]

theorem crop2b : TaskPart.cropped getTextClip ⟨page2, ⟨0, 96, 600, 396⟩⟩ = some a3 := by
  norm_num [TaskPart.cropped, retainedBlocks, fetch2b, sortByY0, insertByY0, cropLoop,
    isNoise, sumChars, TaskPart.from_y_offsets, a3, page2, bH2, bC, Rect.height,
    (by decide : pageNumberMatch "Exercise 1\n" = false),
    (by decide : pageNumberMatch "Task cont content!" = false),
    (by decide : ("Exercise 1\n" : String).length = 11),
    (by decide : ("Task cont content!" : String).length = 18),
    (by decide : ("Exercise 1\n" : String) ≠ ""),
    (by decide : ("Task cont content!" : String) ≠ "")]

theorem crop2c : TaskPart.cropped getTextClip ⟨page2, ⟨0, 396, 600, 800⟩⟩ = some a4 := by
  norm_num [TaskPart.cropped, retainedBlocks, fetch2c, sortByY0, insertByY0, cropLoop,
    isNoise, sumChars, TaskPart.from_y_offsets, a4, page2, bH3, bD, Rect.height,
    (by decide : pageNumberMatch "Exercise 1\n" = false),
    (by decide : pageNumberMatch "Task four content!" = false),
    (by decide : ("Exercise 1\n" : String).length = 11),
    (by decide : ("Task four content!" : String).length = 18),
    (by decide : ("Exercise 1\n" : String) ≠ ""),
    (by decide : ("Task four content!" : String) ≠ "")]

theorem crop2ba : TaskPart.cropped getTextClip ⟨page2b, ⟨0, 0, 600, 296⟩⟩ = some a1b := by
  norm_num [TaskPart.cropped, retainedBlocks, fetch2ba, sortByY0, insertByY0, cropLoop,
    isNoise, sumChars, TaskPart.from_y_offsets, a1b, page2b, bA, Rect.height,
    (by decide : pageNumberMatch "Task one content!!" = false),
    (by decide : ("Task one content!!" : String).length = 18),
    (by decide : ("Task one content!!" : String) ≠ "")]

theorem crop2bb : TaskPart.cropped getTextClip ⟨page2b, ⟨0, 296, 600, 800⟩⟩ = some a2b := by
  norm_num [TaskPart.cropped, retainedBlocks, fetch2bb, sortByY0, insertByY0, cropLoop,
    isNoise, sumChars, TaskPart.from_y_offsets, a2b, page2b, bH1, bB, Rect.height,
    (by decide : pageNumberMatch "Exercise 1\n" = false),
    (by decide : pageNumberMatch "Task two content!!" = false),
    (by decide : ("Exercise 1\n" : String).length = 11),
    (by decide : ("Task two content!!" : String).length = 18),
    (by decide : ("Exercise 1\n" : String) ≠ ""),
    (by decide : ("Task two content!!" : String) ≠ "")]

/-- Computation rule: a discarded slice leaves the task list unchanged. -/
theorem collectStep_none (ts : List (List TaskPart)) (i : ℕ) :
    collectStep ts i none = ts := rfl

/-- Computation rule: a surviving slice at a nonzero index starts a new task. -/
theorem collectStep_some_pos (ts : List (List TaskPart)) (k : ℕ) (hk : k ≠ 0)
    (c : TaskPart) : collectStep ts k (some c) = ts ++ [[c]] := by
  simp [collectStep, hk]

/-- Computation rule: a surviving first slice with no task yet starts a task. -/
theorem collectStep_zero_nil (c : TaskPart) : collectStep [] 0 (some c) = [[c]] := by
  simp [collectStep]

/-- Computation rule: a surviving first slice merges into the last task. -/
theorem collectStep_zero_cons (t : List TaskPart) (ts : List (List TaskPart))
    (c : TaskPart) : collectStep (t :: ts) 0 (some c) = appendToLast c (t :: ts) := by
  simp [collectStep]

/-- Folding the collect loop body over slices enumerated from a nonzero
index never merges: every surviving crop starts a new singleton task. -/
theorem foldl_collectStep_enumFrom (fetch : Page → Rect → List Block)
    (ps : List TaskPart) : ∀ (k : ℕ), k ≠ 0 → ∀ (ts : List (List TaskPart)),
    List.foldl (fun ts p => collectStep ts p.1 (TaskPart.cropped fetch p.2)) ts
        (List.enumFrom k ps)
      = ts ++ (ps.filterMap (TaskPart.cropped fetch)).map (fun c => [c]) := by
  induction ps with
  | nil => intro k hk ts; simp [List.enumFrom]
  | cons p ps ih =>
    intro k hk ts
    have he : List.enumFrom k (p :: ps) = (k, p) :: List.enumFrom (k + 1) ps := rfl
    rw [he, List.foldl_cons, ih (k + 1) (by omega)]
    cases hc : TaskPart.cropped fetch p with
    | none => simp only [hc, collectStep_none, List.filterMap_cons]
    | some c =>
      simp only [hc, collectStep_some_pos ts k hk, List.filterMap_cons,
        List.map_cons, List.append_assoc, List.singleton_append]

/-- Per-page behaviour of collect_tasks: the crop of the raw slice at
index 0 (if any) is merged into the last task when the task list is
nonempty and otherwise starts a new task, and the surviving crops of all
later slices start new singleton tasks. -/
theorem collectPage_eq (fetch : Page → Rect → List Block) (re : String → Bool)
    (ts : List (List TaskPart)) (page : Page) (p0 : TaskPart) (tail : List TaskPart)
    (h : TaskPart.split_page page re = p0 :: tail) :
    collectPage fetch re ts page
      = (match TaskPart.cropped fetch p0 with
         | none => ts
         | some c => if ts = [] then [[c]] else appendToLast c ts)
        ++ (tail.filterMap (TaskPart.cropped fetch)).map (fun c => [c]) := by
  unfold collectPage
  rw [h]
  cases hc : TaskPart.cropped fetch p0 with
  | none =>
    simp only [List.enum, List.enumFrom, List.foldl_cons, hc, collectStep_none]
    exact foldl_collectStep_enumFrom fetch tail 1 one_ne_zero ts
  | some c =>
    cases ts with
    | nil =>
      simp only [List.enum, List.enumFrom, List.foldl_cons, hc, collectStep_zero_nil,
        if_true, eq_self_iff_true]
      exact foldl_collectStep_enumFrom fetch tail (0 + 1) (by omega) [[c]]
    | cons t ts' =>
      simp only [List.enum, List.enumFrom, List.foldl_cons, hc, collectStep_zero_cons,
        List.cons_ne_nil, if_false, reduceCtorEq]
      exact foldl_collectStep_enumFrom fetch tail (0 + 1) (by omega) _

theorem collect_page1 : collectPage getTextClip reEx [] page1 = [[a1], [a2]] := by
  rw [collectPage_eq getTextClip reEx [] page1 _ _ split_page1]
  simp [crop1a, crop1b]

theorem collect_page2 :
    collectPage getTextClip reEx [[a1], [a2]] page2 = [[a1], [a2], [a3], [a4]] := by
  rw [collectPage_eq getTextClip reEx [[a1], [a2]] page2 _ _ split_page2]
  simp [crop2a, crop2b, crop2c]

theorem collect_page2b :
    collectPage getTextClip reEx [[a1], [a2]] page2b = [[a1], [a2, a1b], [a2b]] := by
  rw [collectPage_eq getTextClip reEx [[a1], [a2]] page2b _ _ split_page2b]
  simp [crop2ba, crop2bb, appendToLast]

theorem collect_doc1 :
    collect_tasks getTextClip [page1, page2] reEx = [[a1], [a2], [a3], [a4]] := by
  simp only [collect_tasks, List.foldl_cons, List.foldl_nil, collect_page1, collect_page2]

theorem collect_doc2 :
    collect_tasks getTextClip [page1, page2b] reEx = [[a1], [a2, a1b], [a2b]] := by
  simp only [collect_tasks, List.foldl_cons, List.foldl_nil, collect_page1, collect_page2b]

/-- C1 (counterexample): page1 produces the two surviving slices a1, a2
and page2 the two surviving slices a3, a4, yet collect_tasks yields the
four singleton tasks [[a1], [a2], [a3], [a4]] and not [[a1], [a2, a3], [a4]]:
page2's first *raw* slice (above its first heading) is discarded by
cropping, and then no merge happens at all — the merge is keyed on the raw
slice index 0, not on the first *surviving* slice, contradicting the claim. -/
theorem c1_counterexample :
    (TaskPart.split_page page1 reEx).filterMap (TaskPart.cropped getTextClip) = [a1, a2]
    ∧ (TaskPart.split_page page2 reEx).filterMap (TaskPart.cropped getTextClip) = [a3, a4]
    ∧ collect_tasks getTextClip [page1, page2] reEx = [[a1], [a2], [a3], [a4]]
    ∧ (collect_tasks getTextClip [page1, page2] reEx).map List.length = [1, 1, 1, 1] := by
  refine ⟨?_, ?_, collect_doc1, ?_⟩
  · rw [split_page1]; simp [crop1a, crop1b]
  · rw [split_page2]; simp [crop2a, crop2b, crop2c]
  · rw [collect_doc1]
    rfl

/-- C1 (amended): during assembly, the crop of the raw slice at index 0 of
a page (the region above its first heading) is, when it survives cropping,
appended to the last existing task if at least one task exists (otherwise
it starts a new task), and the surviving crops of all the other slices
each start a brand-new singleton task; in particular, when page 1 yields
surviving slices [a1, a2] and page 2's *first raw slice* survives as a1b
followed by a2b, the result is [[a1], [a2, a1b], [a2b]]. -/
theorem c1_merge_on_first_raw_slice :
    (∀ (fetch : Page → Rect → List Block) (re : String → Bool)
        (ts : List (List TaskPart)) (page : Page) (p0 : TaskPart) (tail : List TaskPart),
      TaskPart.split_page page re = p0 :: tail →
      collectPage fetch re ts page
        = (match TaskPart.cropped fetch p0 with
           | none => ts
           | some c => if ts = [] then [[c]] else appendToLast c ts)
          ++ (tail.filterMap (TaskPart.cropped fetch)).map (fun c => [c]))
    ∧ collect_tasks getTextClip [page1, page2b] reEx = [[a1], [a2, a1b], [a2b]] :=
  ⟨fun fetch re ts page p0 tail h => collectPage_eq fetch re ts page p0 tail h,
   collect_doc2⟩

/-- C1 (witness): the amended characterization applied to page2 on the
task list [[a1], [a2]]: the first raw slice crops to none, so the page
only contributes the singleton tasks [a3] and [a4]. -/
theorem c1_witness :
    TaskPart.split_page page2 reEx
        = ⟨page2, ⟨0, 0, 600, 96⟩⟩ :: [⟨page2, ⟨0, 96, 600, 396⟩⟩, ⟨page2, ⟨0, 396, 600, 800⟩⟩]
    ∧ collectPage getTextClip reEx [[a1], [a2]] page2 = [[a1], [a2], [a3], [a4]] := by
  refine ⟨split_page2, ?_⟩
  rw [c1_merge_on_first_raw_slice.1 getTextClip reEx [[a1], [a2]] page2 _ _ split_page2]
  simp [crop2a, crop2b, crop2c]

/-- Every part produced by the split loop carries the page it was cut from. -/
theorem splitGo_page (page : Page) : ∀ (bs : List Block) (prev : ℚ) (tp : TaskPart),
    tp ∈ splitGo page prev bs → tp.page = page := by
  intro bs
  induction bs with
  | nil =>
    intro prev tp htp
    simp only [splitGo, List.mem_singleton] at htp
    rw [htp]; rfl
  | cons b bs ih =>
    intro prev tp htp
    simp only [splitGo, List.mem_cons] at htp
    cases htp with
    | inl h => rw [h]; rfl
    | inr h => exact ih _ tp h

/-- Every slice returned by split_page belongs to the split page. -/
theorem mem_split_page (page : Page) (re : String → Bool) (tp : TaskPart)
    (h : tp ∈ TaskPart.split_page page re) : tp.page = page :=
  splitGo_page page _ _ tp h

/-- split_page always returns at least one slice (the final one). -/
theorem split_page_ne_nil (page : Page) (re : String → Bool) :
    TaskPart.split_page page re ≠ [] := by
  unfold TaskPart.split_page
  cases sortByY0 (page.blocks.filter (fun b => re b.text)) with
  | nil => simp [splitGo]
  | cons b bs => simp [splitGo]

/-- A surviving crop lives on the same page as the slice it was cut from. -/
theorem cropped_page (fetch : Page → Rect → List Block) (tp c : TaskPart)
    (h : TaskPart.cropped fetch tp = some c) : c.page = tp.page := by
  unfold TaskPart.cropped at h
  cases hr : retainedBlocks fetch tp with
  | nil => simp only [hr] at h; exact Option.noConfusion h
  | cons b0 rest =>
    simp only [hr] at h
    by_cases hs : sumChars (b0 :: rest) < 10
    · rw [if_pos hs] at h; cases h
    · rw [if_neg hs] at h
      have := Option.some.inj h
      rw [← this]; rfl

/-- Appending a part of the current page to the last task preserves the
invariants, provided everything stored so far is from earlier pages. -/
theorem appendToLast_good (c : TaskPart) (n : ℕ) (hc : c.page.number = n) :
    ∀ ts : List (List TaskPart), GoodTasks ts → TasksBelow n ts →
      GoodTasks (appendToLast c ts) ∧ TasksBelowEq n (appendToLast c ts) := by
  intro ts
  induction ts with
  | nil =>
    intro _ _
    constructor <;> intro t ht <;> simp [appendToLast] at ht
  | cons t ts ih =>
    intro hg hb
    cases ts with
    | nil =>
      constructor
      · intro t' ht'
        simp only [appendToLast, List.mem_singleton] at ht'
        subst ht'
        refine ⟨by simp, ?_⟩
        rw [List.chain'_append]
        refine ⟨(hg t (by simp)).2, List.chain'_singleton c, ?_⟩
        intro x hx y hy
        simp only [List.head?, Option.mem_def, Option.some.injEq] at hy
        obtain ⟨hne, hxl⟩ := List.mem_getLast?_eq_getLast hx
        rw [← hy, hc]
        exact hb t (by simp) x (hxl ▸ List.getLast_mem hne)
      · intro t' ht' p hp
        simp only [appendToLast, List.mem_singleton] at ht'
        subst ht'
        rcases List.mem_append.mp hp with h | h
        · exact le_of_lt (hc ▸ hb t (by simp) p h)
        · simp only [List.mem_singleton] at h
          rw [h, hc]
    | cons t2 ts2 =>
      have hg' : GoodTasks (t2 :: ts2) := fun u hu => hg u (List.mem_cons_of_mem t hu)
      have hb' : TasksBelow n (t2 :: ts2) := fun u hu => hb u (List.mem_cons_of_mem t hu)
      obtain ⟨ihg, ihb⟩ := ih hg' hb'
      constructor
      · intro t' ht'
        simp only [appendToLast, List.mem_cons] at ht'
        cases ht' with
        | inl h => exact h ▸ hg t (by simp)
        | inr h => exact ihg t' h
      · intro t' ht' p hp
        simp only [appendToLast, List.mem_cons] at ht'
        cases ht' with
        | inl h => exact le_of_lt (hb t' (h ▸ List.mem_cons_self t _) p hp)
        | inr h => exact ihb t' h p hp

/-- The invariants are stable under concatenation of task lists. -/
theorem goodTasks_append {xs ys : List (List TaskPart)} (hx : GoodTasks xs)
    (hy : GoodTasks ys) : GoodTasks (xs ++ ys) := by
  intro t ht
  rcases List.mem_append.mp ht with h | h
  · exact hx t h
  · exact hy t h

/-- The page-index bound is stable under concatenation of task lists. -/
theorem tasksBelowEq_append {n : ℕ} {xs ys : List (List TaskPart)}
    (hx : TasksBelowEq n xs) (hy : TasksBelowEq n ys) : TasksBelowEq n (xs ++ ys) := by
  intro t ht
  rcases List.mem_append.mp ht with h | h
  · exact hx t h
  · exact hy t h

/-- Processing one page preserves the invariants: tasks stay nonempty with
strictly increasing page indices, and all stored parts are now from pages
up to the processed one. -/
theorem collectPage_good (fetch : Page → Rect → List Block) (re : String → Bool)
    (page : Page) (ts : List (List TaskPart)) (hg : GoodTasks ts)
    (hb : TasksBelow page.number ts) :
    GoodTasks (collectPage fetch re ts page)
      ∧ TasksBelowEq page.number (collectPage fetch re ts page) := by
  obtain ⟨p0, tail, h⟩ := List.exists_cons_of_ne_nil (split_page_ne_nil page re)
  rw [collectPage_eq fetch re ts page p0 tail h]
  have hpages : ∀ c ∈ tail.filterMap (TaskPart.cropped fetch), c.page = page := by
    intro c hcmem
    obtain ⟨tp, htp, hcr⟩ := List.mem_filterMap.mp hcmem
    rw [cropped_page fetch tp c hcr]
    exact mem_split_page page re tp (h ▸ List.mem_cons_of_mem p0 htp)
  have hsing_good : GoodTasks ((tail.filterMap (TaskPart.cropped fetch)).map (fun c => [c])) := by
    intro t ht
    obtain ⟨c, _, hce⟩ := List.mem_map.mp ht
    rw [← hce]
    exact ⟨by simp, List.chain'_singleton c⟩
  have hsing_below :
      TasksBelowEq page.number ((tail.filterMap (TaskPart.cropped fetch)).map (fun c => [c])) := by
    intro t ht p hp
    obtain ⟨c, hcm, hce⟩ := List.mem_map.mp ht
    rw [← hce] at hp
    simp only [List.mem_singleton] at hp
    rw [hp, hpages c hcm]
  have hts_below : TasksBelowEq page.number ts :=
    fun t ht p hp => le_of_lt (hb t ht p hp)
  cases hc : TaskPart.cropped fetch p0 with
  | none => exact ⟨goodTasks_append hg hsing_good, tasksBelowEq_append hts_below hsing_below⟩
  | some c =>
    have hcpage : c.page.number = page.number := by
      rw [cropped_page fetch p0 c hc, mem_split_page page re p0 (h ▸ List.mem_cons_self p0 tail)]
    cases ts with
    | nil =>
      refine ⟨goodTasks_append ?_ hsing_good, tasksBelowEq_append ?_ hsing_below⟩
      · intro t ht
        simp only [eq_self_iff_true, if_true, List.mem_singleton] at ht
        exact ht ▸ ⟨by simp, List.chain'_singleton c⟩
      · intro t ht p hp
        simp only [eq_self_iff_true, if_true, List.mem_singleton] at ht
        subst ht
        simp only [List.mem_singleton] at hp
        rw [hp, hcpage]
    | cons t ts' =>
      obtain ⟨hag, hab⟩ := appendToLast_good c page.number hcpage (t :: ts') hg hb
      exact ⟨goodTasks_append hag hsing_good, tasksBelowEq_append hab hsing_below⟩

/-- Folding the per-page processing over pages with strictly increasing
indices keeps all tasks nonempty with strictly increasing page indices. -/
theorem collect_fold_good (fetch : Page → Rect → List Block) (re : String → Bool) :
    ∀ (doc : List Page) (ts : List (List TaskPart)),
      List.Chain' (fun p q : Page => p.number < q.number) doc →
      GoodTasks ts → (∀ q ∈ doc.head?, TasksBelow q.number ts) →
      GoodTasks (List.foldl (collectPage fetch re) ts doc) := by
  intro doc
  induction doc with
  | nil => intro ts _ hg _; simpa using hg
  | cons pg rest ih =>
    intro ts hchain hg hb
    simp only [List.foldl_cons]
    have hbpg : TasksBelow pg.number ts := hb pg rfl
    obtain ⟨hg', hble⟩ := collectPage_good fetch re pg ts hg hbpg
    refine ih _ hchain.tail hg' ?_
    intro q hq t ht p hp
    exact lt_of_le_of_lt (hble t ht p hp) ((List.chain'_cons'.mp hchain).1 q hq)

/-- C6: for a document whose pages carry strictly increasing page indices
(as fitz guarantees: page.number is the position in the document), every
task produced by collect_tasks is nonempty, and the parts within each
task have strictly increasing page indices. -/
theorem c6_tasks_nonempty_and_increasing (fetch : Page → Rect → List Block)
    (doc : List Page) (re : String → Bool)
    (hdoc : List.Chain' (fun p q : Page => p.number < q.number) doc) :
    ∀ t ∈ collect_tasks fetch doc re,
      t ≠ [] ∧ List.Chain' (fun a b : TaskPart => a.page.number < b.page.number) t :=
  collect_fold_good fetch re doc [] hdoc
    (by intro t ht; simp at ht)
    (by intro q _ t ht; simp at ht)

/-- C6 (witness): the invariant at the concrete two-page document: four
tasks, all nonempty singleton-or-longer lists with increasing page indices. -/
theorem c6_witness :
    List.Chain' (fun p q : Page => p.number < q.number) [page1, page2]
    ∧ ∀ t ∈ collect_tasks getTextClip [page1, page2] reEx,
        t ≠ [] ∧ List.Chain' (fun a b : TaskPart => a.page.number < b.page.number) t := by
  have hch : List.Chain' (fun p q : Page => p.number < q.number) [page1, page2] := by
    simp [List.chain'_cons, List.chain'_singleton, page1, page2]
  exact ⟨hch, c6_tasks_nonempty_and_increasing getTextClip [page1, page2] reEx hch⟩

/-- C5: cropping returns none exactly when the total character count of
the retained blocks is below 10, and any returned tightened slice has a
retained character count of at least 10. -/
theorem c5_triviality_threshold (fetch : Page → Rect → List Block) (tp : TaskPart) :
    (TaskPart.cropped fetch tp = none ↔ sumChars (retainedBlocks fetch tp) < 10)
    ∧ ∀ part : TaskPart, TaskPart.cropped fetch tp = some part →
        10 ≤ sumChars (retainedBlocks fetch tp) := by
  cases hr : retainedBlocks fetch tp with
  | nil =>
    have hnone : TaskPart.cropped fetch tp = none := by
      unfold TaskPart.cropped; rw [hr]
    rw [hnone]
    exact ⟨⟨fun _ => by simp [sumChars], fun _ => rfl⟩, fun part hp => Option.noConfusion hp⟩
  | cons b0 rest =>
    have heq : TaskPart.cropped fetch tp
        = if sumChars (b0 :: rest) < 10 then none
          else some (TaskPart.from_y_offsets tp.page
            (b0.y0 - tp.page.rect.height * (1/200))
            (rest.foldl (fun m b => max m b.y1) b0.y1 + tp.page.rect.height * (7/1000))) := by
      unfold TaskPart.cropped; rw [hr]
    rw [heq]
    by_cases hs : sumChars (b0 :: rest) < 10
    · rw [if_pos hs]
      exact ⟨⟨fun _ => hs, fun _ => rfl⟩, fun part hp => Option.noConfusion hp⟩
    · rw [if_neg hs]
      exact ⟨⟨fun hn => Option.noConfusion hn, fun hlt => absurd hlt hs⟩,
        fun part _ => le_of_not_lt hs⟩

/-- C10: a block can be skipped as page-number noise only when a block was
already retained with a nonzero top (last_y truthy): with no retained
block, or a retained block at top 0, the noise test is false; hence the
topmost block of a slice is never skipped as noise, and when its text is
nonempty its characters count toward the triviality threshold. -/
theorem c10_topmost_never_noise (ph : ℚ) (b : Block) (rest : List Block) (y : ℚ) :
    isNoise ph none b = false
    ∧ isNoise ph (some 0) b = false
    ∧ (isNoise ph (some y) b = true → y ≠ 0)
    ∧ cropLoop ph none (b :: rest)
        = (if b.text = "" then cropLoop ph none rest else b :: cropLoop ph (some b.y0) rest)
    ∧ (b.text ≠ "" →
        sumChars (cropLoop ph none (b :: rest))
          = b.text.length + sumChars (cropLoop ph (some b.y0) rest)) := by
  refine ⟨rfl, by simp [isNoise], ?_, ?_, ?_⟩
  · intro h
    simp only [isNoise, Bool.and_eq_true, decide_eq_true_eq] at h
    exact h.1.1
  · simp [cropLoop, isNoise]
  · intro h
    simp [cropLoop, isNoise, h, sumChars]

/-- C10 (witness): with a retained block at top 100 on a page of height
800, the bare number block bNum is noise (so 100 is indeed nonzero), and
the topmost nonempty block of a slice contributes its characters. -/
theorem c10_witness :
    isNoise 800 (some 100) bNum = true
    ∧ ((100 : ℚ) ≠ 0)
    ∧ ("3" : String) ≠ ""
    ∧ sumChars (cropLoop 800 none [bNum])
        = ("3" : String).length + sumChars (cropLoop 800 (some bNum.y0) []) := by
  have h1 : isNoise 800 (some 100) bNum = true := by
    simp only [isNoise, bNum, Bool.and_eq_true, decide_eq_true_eq]
    refine ⟨⟨by norm_num, by norm_num⟩, by decide⟩
  exact ⟨h1, (c10_topmost_never_noise 800 bNum [] 100).2.2.1 h1, by decide,
    (c10_topmost_never_noise 800 bNum [] 100).2.2.2.2 (by decide)⟩

theorem fetch3 : getTextClip page3 ⟨0, 0, 600, 800⟩ = [bT, bN] := by
  norm_num [getTextClip, page3, bT, bN]

/-- C3 (counterexample): the claim states the page-number pattern matches
multi-digit numbers such as 12, and that a matching block preceded by a
gap above 5 percent of the page height is skipped.  In the code the
pattern only matches a single-digit page number: the text 12 does not
match, so the block bN at top 500 (gap 50 percent after the block at top
100) is retained, and the cropped bottom 2603/5 = 520.6 comes from bN
(the claim would predict bottom 120 + 5.6 = 125.6). -/
theorem c3_counterexample :
    pageNumberMatch "12" = false
    ∧ ((500 - 100 : ℚ) / 800 > 1/20)
    ∧ TaskPart.cropped getTextClip slice3 = some ⟨page3, ⟨0, 96, 600, 2603/5⟩⟩ := by
  refine ⟨by decide, by norm_num, ?_⟩
  norm_num [TaskPart.cropped, retainedBlocks, slice3, fetch3, sortByY0, insertByY0,
    cropLoop, isNoise, sumChars, TaskPart.from_y_offsets, page3, bT, bN, Rect.height,
    (by decide : pageNumberMatch "Hello world blocks" = false),
    (by decide : pageNumberMatch "12" = false),
    (by decide : ("Hello world blocks" : String).length = 18),
    (by decide : ("12" : String).length = 2),
    (by decide : ("Hello world blocks" : String) ≠ ""),
    (by decide : ("12" : String) ≠ "")]

/-- C3 (amended): a block with nonempty text is skipped as noise exactly
when the noise test holds, and the noise test holds exactly when some
block was already retained (last_y = some y) with a nonzero top y, the
gap (blockTop - y) / pageHeight exceeds 5 percent, and the block's text
matches PAGE_NUMBER_REGEX.  Consequently a matching block is retained
when the gap is at most 5 percent, when nothing has been retained yet,
or when the last retained top is 0; and a block with nonempty
non-matching text is always retained, whatever the gap.  The pattern
matches Page 3, Seite 3, 3 of 10, 3 von 10 and a bare single digit, but
not multi-digit page numbers such as 12 or Page 12. -/
theorem c3_noise_rule :
    (∀ (ph : ℚ) (lastY : Option ℚ) (b : Block),
      isNoise ph lastY b = true
        ↔ ∃ y, lastY = some y ∧ y ≠ 0 ∧ (b.y0 - y) / ph > 1/20
            ∧ pageNumberMatch b.text = true)
    ∧ (∀ (ph : ℚ) (lastY : Option ℚ) (b : Block) (rest : List Block),
        b.text ≠ "" →
        cropLoop ph lastY (b :: rest)
          = if isNoise ph lastY b then cropLoop ph lastY rest
            else b :: cropLoop ph (some b.y0) rest)
    ∧ (∀ (ph : ℚ) (lastY : Option ℚ) (b : Block) (rest : List Block),
        pageNumberMatch b.text = false → b.text ≠ "" →
        cropLoop ph lastY (b :: rest) = b :: cropLoop ph (some b.y0) rest)
    ∧ (∀ (ph y : ℚ) (b : Block) (rest : List Block),
        y ≠ 0 → (b.y0 - y) / ph > 1/20 → pageNumberMatch b.text = true →
        cropLoop ph (some y) (b :: rest) = cropLoop ph (some y) rest)
    ∧ (∀ (ph y : ℚ) (b : Block) (rest : List Block),
        ¬((b.y0 - y) / ph > 1/20) → b.text ≠ "" →
        cropLoop ph (some y) (b :: rest) = b :: cropLoop ph (some b.y0) rest)
    ∧ (∀ (ph : ℚ) (b : Block) (rest : List Block),
        b.text ≠ "" →
        cropLoop ph none (b :: rest) = b :: cropLoop ph (some b.y0) rest)
    ∧ (∀ (ph : ℚ) (b : Block) (rest : List Block),
        b.text ≠ "" →
        cropLoop ph (some 0) (b :: rest) = b :: cropLoop ph (some b.y0) rest)
    ∧ pageNumberMatch "Page 3" = true
    ∧ pageNumberMatch "Seite 3" = true
    ∧ pageNumberMatch "3 of 10" = true
    ∧ pageNumberMatch "3 von 10" = true
    ∧ pageNumberMatch "3" = true
    ∧ pageNumberMatch "12" = false
    ∧ pageNumberMatch "Page 12" = false := by
  refine ⟨?_, ?_, ?_, ?_, ?_, ?_, ?_,
    by decide, by decide, by decide, by decide, by decide, by decide, by decide⟩
  · intro ph lastY b
    cases lastY with
    | none => simp [isNoise]
    | some y =>
      simp only [isNoise, Bool.and_eq_true, decide_eq_true_eq, Option.some.injEq]
      constructor
      · rintro ⟨⟨hy, hgap⟩, hpm⟩
        exact ⟨y, rfl, hy, hgap, hpm⟩
      · rintro ⟨y', hy', hy, hgap, hpm⟩
        subst hy'
        exact ⟨⟨hy, hgap⟩, hpm⟩
  · intro ph lastY b rest hne
    simp only [cropLoop]
    by_cases hno : isNoise ph lastY b = true
    · rw [if_pos hno, if_pos hno]
    · rw [if_neg hno, if_neg hno, if_neg hne]
  · intro ph lastY b rest hpm hne
    have hno : isNoise ph lastY b = false := by
      cases lastY <;> simp [isNoise, hpm]
    simp [cropLoop, hno, hne]
  · intro ph y b rest hy hgt hpm
    have hyes : isNoise ph (some y) b = true := by
      simp only [isNoise, Bool.and_eq_true, decide_eq_true_eq]
      exact ⟨⟨hy, hgt⟩, hpm⟩
    simp [cropLoop, hyes]
  · intro ph y b rest hgap hne
    have hno : isNoise ph (some y) b = false := by
      show (decide (y ≠ 0) && decide ((b.y0 - y) / ph > 1/20) && pageNumberMatch b.text)
          = false
      rw [decide_eq_false hgap]
      simp
    simp [cropLoop, hno, hne]
  · intro ph b rest hne
    simp [cropLoop, isNoise, hne]
  · intro ph b rest hne
    simp [cropLoop, isNoise, hne]

/-- C3 (witness): instances of every case of the noise rule at concrete
blocks on a page of height 800: the non-matching two-digit block bN is
retained after a gap of 50 percent; the matching single-digit block bNum
is skipped after the same gap from a retained top 100, but retained when
the gap is only 10/800, when nothing was retained yet, or when the last
retained top is 0; and the step equation and the noise-test
characterization hold at bNum. -/
theorem c3_witness :
    (pageNumberMatch "12" = false ∧ ("12" : String) ≠ ""
      ∧ cropLoop 800 (some 100) [bN] = [bN])
    ∧ ((100 : ℚ) ≠ 0 ∧ (bNum.y0 - 100) / 800 > 1/20 ∧ pageNumberMatch "3" = true
      ∧ cropLoop 800 (some 100) [bNum] = [])
    ∧ (¬((bNum.y0 - 490) / 800 > 1/20) ∧ ("3" : String) ≠ ""
      ∧ cropLoop 800 (some 490) [bNum] = [bNum])
    ∧ cropLoop 800 none [bNum] = [bNum]
    ∧ cropLoop 800 (some 0) [bNum] = [bNum]
    ∧ cropLoop 800 (some 100) [bNum]
        = (if isNoise 800 (some 100) bNum then cropLoop 800 (some 100) []
           else bNum :: cropLoop 800 (some bNum.y0) [])
    ∧ (isNoise 800 (some 100) bNum = true
        ↔ ∃ y, (some (100 : ℚ)) = some y ∧ y ≠ 0 ∧ (bNum.y0 - y) / 800 > 1/20
            ∧ pageNumberMatch bNum.text = true) := by
  refine ⟨⟨by decide, by decide,
      c3_noise_rule.2.2.1 800 (some 100) bN [] (by decide) (by decide)⟩,
    ⟨by norm_num, by norm_num [bNum], by decide,
      c3_noise_rule.2.2.2.1 800 100 bNum [] (by norm_num) (by norm_num [bNum]) (by decide)⟩,
    ⟨by norm_num [bNum], by decide,
      c3_noise_rule.2.2.2.2.1 800 490 bNum [] (by norm_num [bNum]) (by decide)⟩,
    c3_noise_rule.2.2.2.2.2.1 800 bNum [] (by decide),
    c3_noise_rule.2.2.2.2.2.2.1 800 bNum [] (by decide),
    c3_noise_rule.2.1 800 (some 100) bNum [] (by decide),
    c3_noise_rule.1 800 (some 100) bNum⟩

theorem fetch4 : getTextClip page4 ⟨0, 0, 600, 800⟩ = [bTop] := by
  norm_num [getTextClip, page4, bTop]

/-- The crop of the whole-page slice of page4: its top block touches the
page top, so the tightened top 0 − 800·0.005 = −4 leaves the page. -/
theorem crop4 : TaskPart.cropped getTextClip slice4 = some ⟨page4, ⟨0, -4, 600, 128/5⟩⟩ := by
  norm_num [TaskPart.cropped, retainedBlocks, slice4, fetch4, sortByY0, cropLoop,
    isNoise, sumChars, TaskPart.from_y_offsets, page4, bTop, Rect.height,
    (by decide : ("HelloWorldABC" : String).length = 13),
    (by decide : ("HelloWorldABC" : String) ≠ "")]

/-- C4 (counterexample): slice4 is the one slice segmentation produces on
page4 (no heading matches), yet cropping it returns a part whose top is
firstRetainedTop − 0.5 percent of the page height = 0 − 4 = −4, which lies
above the page top 0: the tightened bounds are not clamped to the page. -/
theorem c4_counterexample :
    TaskPart.split_page page4 reEx = [slice4]
    ∧ TaskPart.cropped getTextClip slice4 = some ⟨page4, ⟨0, -4, 600, 128/5⟩⟩
    ∧ page4.rect.y0 = 0
    ∧ ((-4 : ℚ) < 0) := by
  refine ⟨?_, crop4, rfl, by norm_num⟩
  norm_num [TaskPart.split_page, splitGo, sortByY0, insertByY0, reEx,
    TaskPart.from_y_offsets, page4, bTop, slice4]

/-- Membership is preserved by the stable insertion. -/
theorem mem_insertByY0 (a b : Block) : ∀ l : List Block,
    (a ∈ insertByY0 b l ↔ a = b ∨ a ∈ l) := by
  intro l
  induction l with
  | nil => simp [insertByY0]
  | cons c cs ih =>
    by_cases h : b.y0 ≤ c.y0
    · simp [insertByY0, h, List.mem_cons]
    · simp only [insertByY0, if_neg h, List.mem_cons, ih]
      tauto

/-- Sorting by the top coordinate preserves membership. -/
theorem mem_sortByY0 (a : Block) : ∀ l : List Block, (a ∈ sortByY0 l ↔ a ∈ l) := by
  intro l
  induction l with
  | nil => simp [sortByY0]
  | cons b bs ih => simp [sortByY0, mem_insertByY0, ih]

/-- The retained blocks form a subset of the scanned blocks. -/
theorem mem_cropLoop (ph : ℚ) (a : Block) : ∀ (lastY : Option ℚ) (bs : List Block),
    a ∈ cropLoop ph lastY bs → a ∈ bs := by
  intro lastY bs
  induction bs generalizing lastY with
  | nil => intro h; simp [cropLoop] at h
  | cons b rest ih =>
    intro h
    unfold cropLoop at h
    by_cases h1 : isNoise ph lastY b = true
    · rw [if_pos h1] at h
      exact List.mem_cons_of_mem b (ih lastY h)
    · rw [if_neg h1] at h
      by_cases h2 : b.text = ""
      · rw [if_pos h2] at h
        exact List.mem_cons_of_mem b (ih lastY h)
      · rw [if_neg h2] at h
        rcases List.mem_cons.mp h with h3 | h3
        · exact h3 ▸ List.mem_cons_self b rest
        · exact List.mem_cons_of_mem b (ih (some b.y0) h3)

/-- The running maximum of the bottoms is bounded by any common bound. -/
theorem foldl_max_le (C : ℚ) : ∀ (l : List Block) (a : ℚ), a ≤ C →
    (∀ b ∈ l, b.y1 ≤ C) → l.foldl (fun m b => max m b.y1) a ≤ C := by
  intro l
  induction l with
  | nil => intro a ha _; exact ha
  | cons b rest ih =>
    intro a ha hl
    exact ih (max a b.y1) (max_le ha (hl b (List.mem_cons_self b rest)))
      (fun c hc => hl c (List.mem_cons_of_mem b hc))

/-- The slices cut by the split loop stay within the page's vertical
extent as long as the cut blocks' tops do. -/
theorem splitGo_bounds (page : Page) : ∀ (bs : List Block) (prev : ℚ),
    page.rect.y0 ≤ page.rect.y1 →
    (∀ b ∈ bs, b.y0 ≤ page.rect.y1) →
    page.rect.y0 ≤ prev →
    ∀ tp ∈ splitGo page prev bs, page.rect.y0 ≤ tp.rect.y0 ∧ tp.rect.y1 ≤ page.rect.y1 := by
  intro bs
  induction bs with
  | nil =>
    intro prev hpage _ hprev tp htp
    simp only [splitGo, List.mem_singleton] at htp
    subst htp
    exact ⟨hprev, le_refl _⟩
  | cons b rest ih =>
    intro prev hpage hbs hprev tp htp
    have hu0 : page.rect.y0 ≤ max (b.y0 - (1/5) * |b.y1 - b.y0|) page.rect.y0 :=
      le_max_right _ _
    have hu1 : max (b.y0 - (1/5) * |b.y1 - b.y0|) page.rect.y0 ≤ page.rect.y1 := by
      apply max_le _ hpage
      have hb := hbs b (List.mem_cons_self b rest)
      have habs : 0 ≤ (1/5) * |b.y1 - b.y0| := by positivity
      linarith
    simp only [splitGo, List.mem_cons] at htp
    cases htp with
    | inl h => subst h; exact ⟨hprev, hu1⟩
    | inr h =>
      exact ih _ hpage (fun c hc => hbs c (List.mem_cons_of_mem b hc)) hu0 tp h

/-- C4 (amended): slices produced by segmentation lie within the page's
vertical extent whenever the page rectangle is proper and every heading
block's top lies on the page; a slice returned by cropping has top
firstRetainedTop − 0.5 percent and bottom maxRetainedBottom + 0.7 percent
of the page height, so it lies within the page whenever every fetched
block keeps those margins from the page edges — the code does not clamp
the tightened bounds to the page (see the counterexample). -/
theorem c4_slices_within_page :
    (∀ (page : Page) (re : String → Bool),
      page.rect.y0 ≤ page.rect.y1 →
      (∀ b ∈ page.blocks, re b.text = true → b.y0 ≤ page.rect.y1) →
      ∀ tp ∈ TaskPart.split_page page re,
        page.rect.y0 ≤ tp.rect.y0 ∧ tp.rect.y1 ≤ page.rect.y1)
    ∧ (∀ (fetch : Page → Rect → List Block) (tp part : TaskPart),
        TaskPart.cropped fetch tp = some part →
        (∀ b ∈ fetch tp.page tp.rect,
          tp.page.rect.y0 + tp.page.rect.height * (1/200) ≤ b.y0
          ∧ b.y1 + tp.page.rect.height * (7/1000) ≤ tp.page.rect.y1) →
        tp.page.rect.y0 ≤ part.rect.y0 ∧ part.rect.y1 ≤ tp.page.rect.y1) := by
  constructor
  · intro page re hpage hblocks tp htp
    apply splitGo_bounds page _ page.rect.y0 hpage _ (le_refl _) tp htp
    intro b hb
    rw [mem_sortByY0] at hb
    obtain ⟨hmem, hre⟩ := List.mem_filter.mp hb
    exact hblocks b hmem hre
  · intro fetch tp part hcrop hmargins
    cases hr : retainedBlocks fetch tp with
    | nil =>
      have : TaskPart.cropped fetch tp = none := by
        unfold TaskPart.cropped; rw [hr]
      rw [this] at hcrop
      exact Option.noConfusion hcrop
    | cons b0 rest =>
      have heq : TaskPart.cropped fetch tp
          = if sumChars (b0 :: rest) < 10 then none
            else some (TaskPart.from_y_offsets tp.page
              (b0.y0 - tp.page.rect.height * (1/200))
              (rest.foldl (fun m b => max m b.y1) b0.y1 + tp.page.rect.height * (7/1000))) := by
        unfold TaskPart.cropped; rw [hr]
      rw [heq] at hcrop
      by_cases hs : sumChars (b0 :: rest) < 10
      · rw [if_pos hs] at hcrop
        exact Option.noConfusion hcrop
      · rw [if_neg hs] at hcrop
        have hpart := (Option.some.inj hcrop).symm
        have hret : ∀ b ∈ (b0 :: rest : List Block), b ∈ fetch tp.page tp.rect := by
          intro b hb
          have : b ∈ cropLoop tp.page.rect.height none (sortByY0 (fetch tp.page tp.rect)) := by
            rw [← retainedBlocks] at *
            exact hr ▸ hb
          exact (mem_sortByY0 b _).mp (mem_cropLoop _ b none _ this)
        have hb0 := hmargins b0 (hret b0 (List.mem_cons_self b0 rest))
        have hmax : rest.foldl (fun m b => max m b.y1) b0.y1
            ≤ tp.page.rect.y1 - tp.page.rect.height * (7/1000) := by
          apply foldl_max_le
          · linarith [hb0.2]
          · intro b hb
            have := hmargins b (hret b (List.mem_cons_of_mem b0 hb))
            linarith [this.2]
        rw [hpart]
        constructor
        · simp only [TaskPart.from_y_offsets]
          linarith [hb0.1]
        · simp only [TaskPart.from_y_offsets]
          linarith

/-- C4 (witness): on page1 the hypotheses hold — the page rectangle is
proper, the heading lies on the page, and the single block of the first
slice keeps the 0.5 and 0.7 percent margins — so the segmentation slices
and the crop a1 stay within the page. -/
theorem c4_witness :
    page1.rect.y0 ≤ page1.rect.y1
    ∧ (∀ tp ∈ TaskPart.split_page page1 reEx,
        page1.rect.y0 ≤ tp.rect.y0 ∧ tp.rect.y1 ≤ page1.rect.y1)
    ∧ TaskPart.cropped getTextClip ⟨page1, ⟨0, 0, 600, 296⟩⟩ = some a1
    ∧ page1.rect.y0 ≤ a1.rect.y0 ∧ a1.rect.y1 ≤ page1.rect.y1 := by
  have h1 : page1.rect.y0 ≤ page1.rect.y1 := by norm_num [page1]
  have h2 : ∀ b ∈ page1.blocks, reEx b.text = true → b.y0 ≤ page1.rect.y1 := by
    intro b hb _
    simp only [page1, List.mem_cons, List.mem_singleton, List.not_mem_nil] at hb
    rcases hb with rfl | rfl | rfl | h
    · norm_num [bA, page1]
    · norm_num [bH1, page1]
    · norm_num [bB, page1]
    · cases h
  have h3 : ∀ b ∈ getTextClip page1 (⟨0, 0, 600, 296⟩ : Rect),
      page1.rect.y0 + page1.rect.height * (1/200) ≤ b.y0
      ∧ b.y1 + page1.rect.height * (7/1000) ≤ page1.rect.y1 := by
    rw [fetch1a]
    intro b hb
    simp only [List.mem_singleton] at hb
    subst hb
    constructor <;> norm_num [bA, page1, Rect.height]
  obtain ⟨hy0, hy1⟩ := c4_slices_within_page.2 getTextClip ⟨page1, ⟨0, 0, 600, 296⟩⟩ a1 crop1a h3
  exact ⟨h1, c4_slices_within_page.1 page1 reEx h1 h2, crop1a, hy0, hy1⟩

/-- The split loop emits exactly the slices between consecutive entries
of prev :: cuts :: page bottom. -/
theorem splitGo_eq (page : Page) : ∀ (bs : List Block) (prev : ℚ),
    splitGo page prev bs
      = (List.zip (prev :: boundaries page bs) (boundaries page bs ++ [page.rect.y1])).map
          (fun pr => TaskPart.from_y_offsets page pr.1 pr.2) := by
  intro bs
  induction bs with
  | nil => intro prev; simp [splitGo, boundaries]
  | cons b rest ih =>
    intro prev
    simp only [splitGo, boundaries, List.map_cons, List.cons_append, List.zip_cons_cons]
    rw [show boundaries page rest
        = rest.map (fun b => max (b.y0 - (1/5) * |b.y1 - b.y0|) page.rect.y0) from rfl] at ih
    rw [ih]

/-- The split loop never returns an empty list. -/
theorem splitGo_ne_nil (page : Page) (prev : ℚ) (bs : List Block) :
    splitGo page prev bs ≠ [] := by
  cases bs <;> simp [splitGo]

/-- The first slice of the split loop starts at the running boundary. -/
theorem splitGo_head (page : Page) (prev : ℚ) (bs : List Block) :
    ((splitGo page prev bs).head?).map (fun tp => tp.rect.y0) = some prev := by
  cases bs <;> rfl

/-- The last slice of the split loop ends at the page bottom. -/
theorem splitGo_last (page : Page) : ∀ (bs : List Block) (prev : ℚ),
    ((splitGo page prev bs).getLast?).map (fun tp => tp.rect.y1) = some page.rect.y1 := by
  intro bs
  induction bs with
  | nil => intro prev; rfl
  | cons b rest ih =>
    intro prev
    obtain ⟨p', l', hpl⟩ : ∃ p' l',
        splitGo page (max (b.y0 - (1/5) * |b.y1 - b.y0|) page.rect.y0) rest = p' :: l' := by
      cases rest <;> exact ⟨_, _, rfl⟩
    have := ih (max (b.y0 - (1/5) * |b.y1 - b.y0|) page.rect.y0)
    rw [hpl] at this
    simp only [splitGo, hpl, List.getLast?_cons_cons]
    exact this

/-- Insertion grows the length by one. -/
theorem length_insertByY0 (b : Block) : ∀ l : List Block,
    (insertByY0 b l).length = l.length + 1 := by
  intro l
  induction l with
  | nil => rfl
  | cons c cs ih =>
    by_cases h : b.y0 ≤ c.y0
    · simp [insertByY0, h]
    · simp [insertByY0, h, ih]

/-- Sorting preserves the length. -/
theorem length_sortByY0 : ∀ l : List Block, (sortByY0 l).length = l.length := by
  intro l
  induction l with
  | nil => rfl
  | cons b bs ih => simp [sortByY0, length_insertByY0, ih]

/-- Gluing non-decreasing cuts between the page top and the page bottom
gives a non-decreasing boundary sequence. -/
theorem chain_boundaries {us : List ℚ} {t b : ℚ} (hchain : List.Chain' (· ≤ ·) us)
    (hub : ∀ u ∈ us, u ≤ b) (hts : ∀ u ∈ us, t ≤ u) (htb : t ≤ b) :
    List.Chain' (· ≤ ·) (t :: us ++ [b]) := by
  rw [List.cons_append, List.chain'_cons']
  constructor
  · intro y hy
    cases us with
    | nil =>
      simp only [List.nil_append, List.head?, Option.mem_def, Option.some.injEq] at hy
      exact hy ▸ htb
    | cons u us' =>
      simp only [List.cons_append, List.head?, Option.mem_def, Option.some.injEq] at hy
      exact hy ▸ hts u (List.mem_cons_self u us')
  · rw [List.chain'_append]
    refine ⟨hchain, List.chain'_singleton b, ?_⟩
    intro x hx y hy
    simp only [List.head?, Option.mem_def, Option.some.injEq] at hy
    obtain ⟨hne, hxl⟩ := List.mem_getLast?_eq_getLast hx
    exact hy ▸ hub x (hxl ▸ List.getLast_mem hne)

/-- Every heading cut lies at or below the page top coordinate. -/
theorem mem_boundaries_ge (page : Page) (bs : List Block) (u : ℚ)
    (h : u ∈ boundaries page bs) : page.rect.y0 ≤ u := by
  obtain ⟨b, _, hb⟩ := List.mem_map.mp h
  exact hb ▸ le_max_right _ _

/-- C2 (amended): split_page returns exactly the k+1 slices between the
consecutive entries of pageTop :: cuts ++ [pageBottom], where the k cuts
are max(headingTop − 0.2·blockHeight, pageTop) for the matched headings
sorted by top; the first slice starts at the page top, the last ends at
the page bottom, and zero matches give one slice spanning the page.  The
boundary sequence need not be monotone in general (a tall later heading
can cut above an earlier boundary, see the counterexample); it is
non-decreasing when the cuts themselves are non-decreasing and stay above
the page bottom. -/
theorem c2_segmentation_boundaries (page : Page) (re : String → Bool) :
    TaskPart.split_page page re
      = (List.zip (page.rect.y0 :: headingCuts page re)
          (headingCuts page re ++ [page.rect.y1])).map
          (fun pr => TaskPart.from_y_offsets page pr.1 pr.2)
    ∧ (TaskPart.split_page page re).length
        = (page.blocks.filter (fun b => re b.text)).length + 1
    ∧ (page.blocks.filter (fun b => re b.text) = [] →
        TaskPart.split_page page re
          = [TaskPart.from_y_offsets page page.rect.y0 page.rect.y1])
    ∧ ((TaskPart.split_page page re).head?).map (fun tp => tp.rect.y0)
        = some page.rect.y0
    ∧ ((TaskPart.split_page page re).getLast?).map (fun tp => tp.rect.y1)
        = some page.rect.y1
    ∧ (List.Chain' (· ≤ ·) (headingCuts page re) →
        (∀ u ∈ headingCuts page re, u ≤ page.rect.y1) →
        page.rect.y0 ≤ page.rect.y1 →
        List.Chain' (· ≤ ·) (page.rect.y0 :: headingCuts page re ++ [page.rect.y1])) := by
  refine ⟨splitGo_eq page _ page.rect.y0, ?_, ?_, splitGo_head page _ _, splitGo_last page _ _, ?_⟩
  · unfold TaskPart.split_page
    rw [splitGo_eq page _ page.rect.y0]
    simp only [List.length_map, List.length_zip, List.length_cons, List.length_append,
      List.length_singleton, boundaries, headingCuts, length_sortByY0]
    omega
  · intro hf
    unfold TaskPart.split_page
    rw [hf]
    simp [sortByY0, splitGo]
  · intro h1 h2 h3
    exact chain_boundaries h1 h2 (fun u hu => mem_boundaries_ge page _ u hu) h3

/-- C2 (counterexample): page5 carries two distinct, non-overlapping
heading matches (the first ends at 110, the second starts at 111), yet
the slice boundaries are 98 then 71: the second cut 111 − 0.2·200 = 71
lies above the first 100 − 0.2·10 = 98, so the boundaries are not
monotonically non-decreasing and the middle slice is inverted. -/
theorem c2_counterexample :
    (page5.blocks.filter (fun b => reEx b.text)).length = 2
    ∧ bS1.y1 < bS2.y0
    ∧ (TaskPart.split_page page5 reEx).map (fun tp => (tp.rect.y0, tp.rect.y1))
        = [(0, 98), (98, 71), (71, 800)]
    ∧ (71 : ℚ) < 98 := by
  refine ⟨?_, by norm_num [bS1, bS2], ?_, by norm_num⟩
  · simp [page5, bS1, bS2, reEx]
  · norm_num [TaskPart.split_page, splitGo, sortByY0, insertByY0, reEx,
      TaskPart.from_y_offsets, page5, bS1, bS2]

/-- C2 (witness): on page4, which has no heading match, the filter is
empty, the whole page becomes one slice, and the boundary sequence
pageTop :: cuts ++ [pageBottom] is non-decreasing. -/
theorem c2_witness :
    page4.blocks.filter (fun b => reEx b.text) = []
    ∧ TaskPart.split_page page4 reEx = [TaskPart.from_y_offsets page4 0 800]
    ∧ List.Chain' (· ≤ ·) ((0 : ℚ) :: headingCuts page4 reEx ++ [800]) := by
  have hf : page4.blocks.filter (fun b => reEx b.text) = [] := by
    simp [page4, bTop, reEx]
  have hcuts : headingCuts page4 reEx = [] := by
    simp [headingCuts, boundaries, hf, sortByY0]
  refine ⟨hf, (c2_segmentation_boundaries page4 reEx).2.2.1 hf, ?_⟩
  exact (c2_segmentation_boundaries page4 reEx).2.2.2.2.2
    (by rw [hcuts]; exact List.chain'_nil)
    (by rw [hcuts]; intro u hu; cases hu)
    (by norm_num [page4])

/-- Unfolding of the per-task layout on a nonempty task. -/
theorem layoutTask_cons (landscape grid : Bool) (p0 : TaskPart) (rest : List TaskPart) :
    layoutTask landscape grid (p0 :: rest)
      = Event.newPage (outW landscape p0) (outH landscape p0)
        :: (partsEvents (outW landscape p0) 0 (p0 :: rest)
          ++ (if grid then
                gridEvents (outW landscape p0) (outH landscape p0) p0.page.rect.width
                  (gridStart landscape p0 rest)
              else [])) := rfl

/-- The while loop of the grid drawing, one unfolding step: for a
positive step the list of loop values satisfies the loop equation, which
shows hYs is a faithful rendering of the Python while loop. -/
theorem hYs_unfold (base h cell : ℚ) (hc : 0 < cell) :
    hYs base h cell = if base ≤ h then base :: hYs (base + cell) h cell else [] := by
  by_cases hbh : base ≤ h
  · rw [if_pos hbh]
    have hq : (0 : ℚ) ≤ (h - base) / cell := div_nonneg (by linarith) (le_of_lt hc)
    have hn : (0 : ℤ) ≤ ⌊(h - base) / cell⌋ := Int.floor_nonneg.mpr hq
    have hiter : hIter base h cell = ⌊(h - base) / cell⌋.toNat + 1 := by
      unfold hIter
      rw [if_pos ⟨hbh, hc⟩]
      omega
    have hsub : (h - (base + cell)) / cell = (h - base) / cell - 1 := by
      field_simp
      ring
    have hiter' : hIter (base + cell) h cell = ⌊(h - base) / cell⌋.toNat := by
      unfold hIter
      by_cases hbh' : base + cell ≤ h
      · rw [if_pos ⟨hbh', hc⟩, hsub]
        rw [show ((1 : ℚ) = ((1 : ℤ) : ℚ)) from rfl, Int.floor_sub_int]
        omega
      · rw [if_neg (fun hand => hbh' hand.1)]
        have hlt : (h - base) / cell < 1 := by
          rw [div_lt_one hc]
          linarith
        have : ⌊(h - base) / cell⌋ < 1 := Int.floor_lt.mpr (by exact_mod_cast hlt)
        omega
    unfold hYs
    rw [hiter, hiter', List.range_succ_eq_map]
    simp only [List.map_cons, List.map_map]
    congr 1
    · norm_num
    · apply List.map_congr_left
      intro k _
      simp only [Function.comp_apply]
      push_cast
      ring
  · rw [if_neg hbh]
    unfold hYs hIter
    rw [if_neg (fun hand => hbh hand.1)]
    rfl

/-- Every event of the part-placing loop is a centered copy of the
source rectangle of one of the parts. -/
theorem partsEvents_shape (w : ℚ) : ∀ (ps : List TaskPart) (y : ℚ) (e : Event),
    e ∈ partsEvents w y ps → ∃ (p : TaskPart) (y' : ℚ), p ∈ ps ∧
      e = Event.copy
        { x0 := w/2 - p.source_rect.width/2
          y0 := y'
          x1 := w/2 - p.source_rect.width/2 + p.source_rect.width
          y1 := y' + p.source_rect.height }
        p.page.number p.source_rect := by
  intro ps
  induction ps with
  | nil => intro y e he; simp [partsEvents] at he
  | cons p ps ih =>
    intro y e he
    rw [partsEvents] at he
    rcases List.mem_cons.mp he with h | h
    · exact ⟨p, y, List.mem_cons_self p ps, h⟩
    · obtain ⟨q, y', hq, heq⟩ := ih _ e h
      exact ⟨q, y', List.mem_cons_of_mem p hq, heq⟩

/-- The part-placing loop draws no lines, creates no pages, and emits one
copy per part. -/
theorem partsEvents_counts (w : ℚ) : ∀ (ps : List TaskPart) (y : ℚ),
    (partsEvents w y ps).filter isLineEvent = []
    ∧ (partsEvents w y ps).countP isNewPageEvent = 0
    ∧ (partsEvents w y ps).countP isCopyEvent = ps.length := by
  intro ps
  induction ps with
  | nil => intro y; refine ⟨rfl, rfl, rfl⟩
  | cons p ps ih =>
    intro y
    obtain ⟨h1, h2, h3⟩ := ih (y + p.source_rect.height + (7/1000) * p.page.rect.height)
    refine ⟨?_, ?_, ?_⟩
    · simp [partsEvents, List.filter_cons, isLineEvent, h1]
    · simp [partsEvents, List.countP_cons, isNewPageEvent, h2]
    · simp [partsEvents, List.countP_cons, isCopyEvent, h3]

/-- Every grid event is a line: a horizontal one at a loop value of the
horizontal loop, or a vertical one spanning from start to h. -/
theorem gridEvents_shape (w h srcw start : ℚ) (e : Event)
    (he : e ∈ gridEvents w h srcw start) :
    (∃ y, y ∈ hYs start h (srcw / 40) ∧ e = Event.line 0 y w y (3/10))
    ∨ (∃ x, x ∈ vXs w (srcw / 40) ∧ e = Event.line x start x h (3/10)) := by
  rcases List.mem_append.mp he with h1 | h1
  · obtain ⟨y, hy, he⟩ := List.mem_map.mp h1
    exact Or.inl ⟨y, hy, he.symm⟩
  · obtain ⟨x, hx, he⟩ := List.mem_map.mp h1
    exact Or.inr ⟨x, hx, he.symm⟩

/-- Every value of the horizontal grid loop lies at or below its start
(the step is nonnegative here; in the program it is a positive page
width divided by 40). -/
theorem mem_hYs_ge (base h cell y : ℚ) (hc : 0 ≤ cell) (hy : y ∈ hYs base h cell) :
    base ≤ y := by
  obtain ⟨k, _, hk⟩ := List.mem_map.mp hy
  rw [← hk]
  have : 0 ≤ (k : ℚ) * cell := mul_nonneg (by positivity) hc
  linarith

/-- C8: every copy emitted by the per-task layout is horizontally
centered: its target left edge is (outputWidth − clipWidth)/2 and its
target width equals the width of the crop-box-corrected source
rectangle it copies. -/
theorem c8_parts_centered (landscape grid : Bool) (p0 : TaskPart) (rest : List TaskPart)
    (dst : Rect) (n : ℕ) (clip : Rect)
    (h : Event.copy dst n clip ∈ layoutTask landscape grid (p0 :: rest)) :
    dst.x0 = (outW landscape p0 - clip.width) / 2 ∧ dst.x1 - dst.x0 = clip.width := by
  rw [layoutTask_cons] at h
  rcases List.mem_cons.mp h with h | h
  · exact Event.noConfusion h
  · rcases List.mem_append.mp h with h | h
    · obtain ⟨p, y', hp, heq⟩ := partsEvents_shape (outW landscape p0) (p0 :: rest) 0 _ h
      injection heq with h1 h2 h3
      subst h1
      subst h3
      constructor
      · show outW landscape p0 / 2 - p.source_rect.width / 2
            = (outW landscape p0 - p.source_rect.width) / 2
        ring
      · show outW landscape p0 / 2 - p.source_rect.width / 2 + p.source_rect.width
            - (outW landscape p0 / 2 - p.source_rect.width / 2) = p.source_rect.width
        ring
    · cases grid with
      | false => simp at h
      | true =>
        rw [if_pos rfl] at h
        rcases gridEvents_shape _ _ _ _ _ h with ⟨y, _, he⟩ | ⟨x, _, he⟩ <;>
          exact Event.noConfusion he

/-- Layout of the whole-page task with the grid disabled: one page and
one centered full-page copy. -/
theorem layout_cPart_nogrid :
    layoutTask false false [cPart]
      = [Event.newPage 600 800,
         Event.copy ⟨0, 0, 600, 800⟩ 0 ⟨0, 0, 600, 800⟩] := by
  rw [layoutTask_cons]
  norm_num [outW, outH, partsEvents, cPart, page6, TaskPart.source_rect,
    Rect.width, Rect.height]

/-- C8 (witness): the single copy of the whole-page task is centered with
zero shift: its target rectangle starts at x = 0 = (600 − 600)/2 and is
600 wide, like its clip. -/
theorem c8_witness :
    Event.copy ⟨0, 0, 600, 800⟩ 0 ⟨0, 0, 600, 800⟩ ∈ layoutTask false false [cPart]
    ∧ (0 : ℚ) = (outW false cPart - Rect.width ⟨0, 0, 600, 800⟩) / 2
    ∧ (600 : ℚ) - 0 = Rect.width ⟨0, 0, 600, 800⟩ := by
  have hmem : Event.copy ⟨0, 0, 600, 800⟩ 0 ⟨0, 0, 600, 800⟩
      ∈ layoutTask false false [cPart] := by
    rw [layout_cPart_nogrid]
    simp
  have h := c8_parts_centered false false cPart [] ⟨0, 0, 600, 800⟩ 0 ⟨0, 0, 600, 800⟩ hmem
  exact ⟨hmem, h.1, h.2⟩

/-- C7 (amended): provided the grid start (content bottom plus 0.01 of
the output height) lies at or above the page bottom coordinate and the
source page width is nonnegative, no grid line is drawn above the start:
every line event of the per-task layout has both endpoint y-coordinates
at or below start (y grows downward).  Without that proviso the claim
fails: see the counterexample, where the vertical lines reach back up to
the page bottom, above the start. -/
theorem c7_grid_lines_below_start (landscape : Bool) (p0 : TaskPart) (rest : List TaskPart)
    (hstart : gridStart landscape p0 rest ≤ outH landscape p0)
    (hw : 0 ≤ p0.page.rect.width)
    (x0 y0 x1 y1 op : ℚ)
    (h : Event.line x0 y0 x1 y1 op ∈ layoutTask landscape true (p0 :: rest)) :
    gridStart landscape p0 rest ≤ y0 ∧ gridStart landscape p0 rest ≤ y1 := by
  rw [layoutTask_cons] at h
  rcases List.mem_cons.mp h with h | h
  · exact Event.noConfusion h
  · rcases List.mem_append.mp h with h | h
    · obtain ⟨p, y', hp, heq⟩ := partsEvents_shape _ _ _ _ h
      exact Event.noConfusion heq
    · rw [if_pos rfl] at h
      rcases gridEvents_shape _ _ _ _ _ h with ⟨y, hy, he⟩ | ⟨x, hx, he⟩
      · injection he with e1 e2 e3 e4 e5
        subst e2
        subst e4
        have hcell : (0 : ℚ) ≤ p0.page.rect.width / 40 := by
          apply div_nonneg hw
          norm_num
        have := mem_hYs_ge _ _ _ _ hcell hy
        exact ⟨this, this⟩
      · injection he with e1 e2 e3 e4 e5
        subst e2
        subst e4
        exact ⟨le_refl _, hstart⟩

/-- C7 (counterexample): for the whole-page task the cursor ends at
805.6, so the grid start is 813.6, beyond the page bottom 800; the grid
still draws its vertical lines, each spanning from 813.6 back up to 800 —
above the start, where the copied content can live. -/
theorem c7_counterexample :
    yAfter 0 [cPart] + (1/100) * 800 = 4068/5
    ∧ Event.line 0 (4068/5) 0 800 (3/10) ∈ layoutTask false true [cPart]
    ∧ (800 : ℚ) < 4068/5 := by
  have hstart : gridStart false cPart [] = 4068/5 := by
    norm_num [gridStart, outH, yAfter, cPart, page6, TaskPart.source_rect, Rect.height]
  refine ⟨?_, ?_, by norm_num⟩
  · norm_num [yAfter, cPart, page6, TaskPart.source_rect, Rect.height]
  · rw [layoutTask_cons]
    apply List.mem_cons_of_mem
    apply List.mem_append_right
    rw [if_pos rfl]
    unfold gridEvents
    apply List.mem_append_right
    apply List.mem_map.mpr
    refine ⟨0, ?_, ?_⟩
    · unfold vXs
      apply List.mem_map.mpr
      refine ⟨0, List.mem_range.mpr (Nat.succ_pos _), ?_⟩
      norm_num [pyMod, outW, cPart, page6, Rect.width]
    · rw [hstart]
      norm_num [outH, cPart, page6, Rect.height]

/-- C7 (witness): for the short task the grid start 113.6 lies on the
page, and every line event of its layout stays at or below the start. -/
theorem c7_witness :
    gridStart false dPart [] ≤ outH false dPart
    ∧ (0 : ℚ) ≤ dPart.page.rect.width
    ∧ ∀ x0 y0 x1 y1 op : ℚ,
        Event.line x0 y0 x1 y1 op ∈ layoutTask false true [dPart] →
        gridStart false dPart [] ≤ y0 ∧ gridStart false dPart [] ≤ y1 := by
  have h1 : gridStart false dPart [] ≤ outH false dPart := by
    norm_num [gridStart, outH, yAfter, dPart, page6, TaskPart.source_rect, Rect.height]
  have h2 : (0 : ℚ) ≤ dPart.page.rect.width := by
    norm_num [dPart, page6, Rect.width]
  exact ⟨h1, h2, fun x0 y0 x1 y1 op h =>
    c7_grid_lines_below_start false dPart [] h1 h2 x0 y0 x1 y1 op h⟩

/-- C9: with the grid disabled, layout_tasks draws no line at all, while
still creating one output page per task and one copy per task part. -/
theorem c9_no_grid_no_lines (landscape : Bool) (tasks : List (List TaskPart))
    (htasks : ∀ t ∈ tasks, t ≠ []) :
    (layout_tasks landscape false tasks).filter isLineEvent = []
    ∧ (layout_tasks landscape false tasks).countP isNewPageEvent = tasks.length
    ∧ (layout_tasks landscape false tasks).countP isCopyEvent
        = (tasks.map List.length).sum := by
  induction tasks with
  | nil => exact ⟨rfl, rfl, rfl⟩
  | cons t ts ih =>
    obtain ⟨ih1, ih2, ih3⟩ := ih (fun u hu => htasks u (List.mem_cons_of_mem t hu))
    obtain ⟨p0, rest, ht⟩ := List.exists_cons_of_ne_nil (htasks t (List.mem_cons_self t ts))
    subst ht
    have hlay : layout_tasks landscape false ((p0 :: rest) :: ts)
        = layoutTask landscape false (p0 :: rest) ++ layout_tasks landscape false ts := by
      simp [layout_tasks]
    obtain ⟨hp1, hp2, hp3⟩ := partsEvents_counts (outW landscape p0) (p0 :: rest) 0
    rw [hlay, layoutTask_cons]
    refine ⟨?_, ?_, ?_⟩
    · simp [List.filter_append, List.filter_cons, isLineEvent, hp1, ih1]
    · simp [List.countP_append, List.countP_cons, isNewPageEvent, hp2, ih2]
    · simp [List.countP_append, List.countP_cons, isCopyEvent, hp3, ih3]

/-- C9 (witness): the single whole-page task laid out without the grid:
no line events, one new page, one copy. -/
theorem c9_witness :
    (∀ t ∈ [[cPart]], t ≠ [])
    ∧ (layout_tasks false false [[cPart]]).filter isLineEvent = []
    ∧ (layout_tasks false false [[cPart]]).countP isNewPageEvent = 1
    ∧ (layout_tasks false false [[cPart]]).countP isCopyEvent = 1 := by
  have hne : ∀ t ∈ [[cPart]], t ≠ [] := by
    intro t ht
    simp only [List.mem_singleton] at ht
    subst ht
    simp
  obtain ⟨h1, h2, h3⟩ := c9_no_grid_no_lines false [[cPart]] hne
  exact ⟨hne, h1, by simpa using h2, by simpa using h3⟩

/-- C5 (witness): the crop of slice4 is a real slice (not none), and its
retained character count 13 meets the threshold, as the theorem demands
of any returned slice. -/
theorem c5_witness :
    TaskPart.cropped getTextClip slice4 = some ⟨page4, ⟨0, -4, 600, 128/5⟩⟩
    ∧ 10 ≤ sumChars (retainedBlocks getTextClip slice4) :=
  ⟨crop4, (c5_triviality_threshold getTextClip slice4).2 _ crop4⟩
